import Mathlib

/-!
Verification development for the drawing engine
(`src/engines/drawing/DrawingEngine.ts` and the drawing screen
`app/(tabs)/draw.tsx`).

The engine is embedded shallowly: JavaScript numbers are modelled as
rationals (`ℚ`), timestamps as integers, the engine object as an explicit
`Engine` state record, and every public method as a state-passing function.
`Date.now()` is an input: each operation that reads the clock takes a
`now : ℤ` parameter.  Emitted events are modelled as a log of event names
appended to the state (the listener table itself has no bearing on the
verified properties).  Skia path/paint handles are modelled as explicit
command lists / style records built by the same algorithms as the source.
-/

/-- The `tool` field: `'brush' | 'eraser'`. -/
inductive Tool where
  | brush
  | eraser
deriving DecidableEq

/-- `Point` from DrawingEngine.ts: x, y, pressure, timestamp plus the
optional velocity and tilt fields. -/
structure Point where
  x : ℚ
  y : ℚ
  pressure : ℚ
  timestamp : ℤ
  velocity : Option ℚ := none
  tilt : Option (ℚ × ℚ) := none
deriving DecidableEq, Inhabited

/-- One Skia path-building command, as issued by `createSkiaPath`. -/
inductive PathCmd where
  | addCircle (cx cy r : ℚ)
  | moveTo (x y : ℚ)
  | quadTo (cx cy ex ey : ℚ)
  | lineTo (x y : ℚ)
deriving DecidableEq

/-- An `SkPath` is the list of commands that built it. -/
abbrev SkPath := List PathCmd

/-- The properties `createSkiaPaint` sets on an `SkPaint`. -/
structure SkPaint where
  color : String
  alphaf : ℚ
  strokeWidth : ℚ
  style : ℕ
  antiAlias : Bool
  strokeCap : ℕ
  strokeJoin : ℕ
  blendMode : ℕ
deriving DecidableEq

/-- `BrushSettings` from DrawingEngine.ts. -/
structure BrushSettings where
  id : String
  name : String
  type : String
  size : ℚ
  opacity : ℚ
  flow : ℚ
  hardness : ℚ
  spacing : ℚ
  scattering : ℚ
  pressureSize : Bool
  pressureOpacity : Bool
  pressureFlow : Bool
  angleJitter : ℚ
  smoothing : ℚ
  taper : Bool
  texture : Option String := none
  blendMode : String
deriving DecidableEq

/-- `Stroke` from DrawingEngine.ts.  `path`/`paint` are the derived render
objects (absent until built). -/
structure Stroke where
  id : String
  points : List Point
  color : String
  size : ℚ
  opacity : ℚ
  tool : Tool
  brushId : String
  path : Option SkPath := none
  paint : Option SkPaint := none
  timestamp : ℤ
  completed : Bool
deriving DecidableEq

/-- `Layer` from DrawingEngine.ts. -/
structure Layer where
  id : String
  name : String
  strokes : List Stroke
  opacity : ℚ
  blendMode : String
  visible : Bool
  locked : Bool
  order : ℤ
deriving DecidableEq

/-- `CanvasState` from DrawingEngine.ts. -/
structure CanvasState where
  layers : List Layer
  activeLayerId : String
  width : ℚ
  height : ℚ
  backgroundColor : String
  zoom : ℚ
  panX : ℚ
  panY : ℚ
deriving DecidableEq

/-- `DrawingStats` from DrawingEngine.ts. -/
structure DrawingStats where
  totalStrokes : ℕ
  totalPoints : ℕ
  totalLayers : ℕ
  memoryUsage : ℕ
  averageStrokeLength : ℚ
  drawingTime : ℤ
deriving DecidableEq

/-- The complete engine state: the private fields of class `DrawingEngine`.
`events` logs the names of emitted events (the observable effect of
`emit`); `maxHistorySize` is the field initialised to 30. -/
structure Engine where
  canvasState : CanvasState
  currentStroke : Option Stroke
  isDrawing : Bool
  drawingStartTime : ℤ
  activeBrush : BrushSettings
  activeColor : String
  activeTool : Tool
  history : List CanvasState
  historyIndex : ℤ
  maxHistorySize : ℕ
  strokeIdCounter : ℕ
  layerIdCounter : ℕ
  performanceMetrics : DrawingStats
  events : List String
deriving DecidableEq

/-- `emit(event, data)`: the observable effect is the event name appended to
the log (listeners are external). -/
def emit (ev : String) (e : Engine) : Engine :=
  { e with events := e.events ++ [ev] }

/-- `createSkiaPath(points)`: 0 points → empty path; 1 point → a circle of
radius `activeBrush.size * pressure * 0.5`; otherwise `moveTo` the first
point, a `quadTo` through each interior point with the midpoint of it and
its successor as endpoint, and a final `lineTo` the last point. -/
def createSkiaPath (brush : BrushSettings) (points : List Point) : SkPath :=
  match points with
  | [] => []
  | [p] => [PathCmd.addCircle p.x p.y (brush.size * p.pressure * 0.5)]
  | p0 :: _ :: _ =>
    let n := points.length
    PathCmd.moveTo p0.x p0.y ::
      ((List.range n).filterMap fun i =>
        if 1 ≤ i ∧ i + 1 < n then
          let current := points.getD i default
          let next := points.getD (i + 1) default
          some (PathCmd.quadTo current.x current.y
            ((current.x + next.x) / 2) ((current.y + next.y) / 2))
        else none) ++
      [PathCmd.lineTo (points.getLast?.getD default).x (points.getLast?.getD default).y]

/-- `createSkiaPaint(stroke)`. -/
def createSkiaPaint (stroke : Stroke) : SkPaint :=
  { color := stroke.color
    alphaf := stroke.opacity
    strokeWidth := stroke.size
    style := 1
    antiAlias := true
    strokeCap := 1
    strokeJoin := 1
    blendMode := if stroke.tool = Tool.eraser then 2 else 3 }

/-- `smoothPoint(point, previousPoints)`: blend with the last previous point
by factor `1 - smoothing`; pass the point through unchanged when there is no
predecessor. -/
def smoothPoint (brush : BrushSettings) (point : Point) (previousPoints : List Point) : Point :=
  match previousPoints.getLast? with
  | none => point
  | some last =>
    let smoothingFactor := brush.smoothing
    { x := last.x + (point.x - last.x) * (1 - smoothingFactor)
      y := last.y + (point.y - last.y) * (1 - smoothingFactor)
      pressure := point.pressure
      timestamp := point.timestamp
      velocity := point.velocity
      tilt := point.tilt }

/-- `calculateDynamicSize(pressure)`. -/
def calculateDynamicSize (brush : BrushSettings) (pressure : ℚ) : ℚ :=
  let baseSize := brush.size
  if !brush.pressureSize then
    baseSize
  else
    let minSize := baseSize * 0.1
    let maxSize := baseSize
    minSize + (maxSize - minSize) * pressure

/-- `calculateDynamicOpacity(pressure)`. -/
def calculateDynamicOpacity (brush : BrushSettings) (pressure : ℚ) : ℚ :=
  let baseOpacity := brush.opacity
  if !brush.pressureOpacity then
    baseOpacity
  else
    let minOpacity := baseOpacity * 0.1
    let maxOpacity := baseOpacity
    minOpacity + (maxOpacity - minOpacity) * pressure

/-- The history snapshot copy `JSON.parse(JSON.stringify(canvasState))`:
all semantic fields round-trip; the native Skia `path`/`paint` handles do
not survive serialisation (they are rebuilt by `rebuildSkiaObjects`). -/
def cloneStroke (s : Stroke) : Stroke :=
  { s with path := none, paint := none }

/-- Layer part of the deep clone. -/
def cloneLayer (l : Layer) : Layer :=
  { l with strokes := l.strokes.map cloneStroke }

/-- CanvasState part of the deep clone. -/
def cloneCanvasState (c : CanvasState) : CanvasState :=
  { c with layers := c.layers.map cloneLayer }

/-- `getActiveLayer()`: first layer whose id is `activeLayerId`, else null. -/
def getActiveLayer (e : Engine) : Option Layer :=
  e.canvasState.layers.find? (fun l => l.id = e.canvasState.activeLayerId)

/-- In-place mutation of the first layer with the given id (`find(...)`
followed by writes through the returned reference). -/
def updateFirstLayer (lid : String) (f : Layer → Layer) : List Layer → List Layer
  | [] => []
  | l :: rest =>
    if l.id = lid then f l :: rest
    else l :: updateFirstLayer lid f rest

/-- `generateStrokeId()`: increments the counter and builds
`stroke_<Date.now()>_<counter>`. -/
def generateStrokeId (now : ℤ) (e : Engine) : Engine × String :=
  let c := e.strokeIdCounter + 1
  ({ e with strokeIdCounter := c }, "stroke_" ++ toString now ++ "_" ++ toString c)

/-- `generateLayerId()`. -/
def generateLayerId (now : ℤ) (e : Engine) : Engine × String :=
  let c := e.layerIdCounter + 1
  ({ e with layerIdCounter := c }, "layer_" ++ toString now ++ "_" ++ toString c)

example :
    calculateDynamicSize
      { id := "b", name := "b", type := "brush", size := 10, opacity := 1, flow := 1,
        hardness := 1, spacing := 0, scattering := 0, pressureSize := true,
        pressureOpacity := false, pressureFlow := false, angleJitter := 0,
        smoothing := 0, taper := false, blendMode := "SrcOver" } (1/2) = 11/2 := by
  norm_num [calculateDynamicSize]

/-- `saveState()`: drop any redo tail, append a deep copy of the live
canvas, advance the index; on overflow of `maxHistorySize` evict the oldest
entry (`shift()`) and move the index back by one. -/
def saveState (e : Engine) : Engine :=
  let trimmed := e.history.take (e.historyIndex + 1).toNat
  let state := cloneCanvasState e.canvasState
  let hist := trimmed ++ [state]
  let idx := e.historyIndex + 1
  if hist.length > e.maxHistorySize then
    { e with history := hist.drop 1, historyIndex := idx - 1 }
  else
    { e with history := hist, historyIndex := idx }

/-- `rebuildSkiaObjects()`: rebuild `path`/`paint` for every stroke with at
least one point. -/
def rebuildSkiaObjects (brush : BrushSettings) (c : CanvasState) : CanvasState :=
  { c with layers := c.layers.map fun l =>
      { l with strokes := l.strokes.map fun s =>
          if s.points.length > 0 then
            { s with path := some (createSkiaPath brush s.points),
                     paint := some (createSkiaPaint s) }
          else s } }

/-- `restoreState(state)`: deep-copy the snapshot into the live canvas,
rebuild the Skia objects, emit `canvas:restored`. -/
def restoreState (st : CanvasState) (e : Engine) : Engine :=
  emit "canvas:restored"
    { e with canvasState := rebuildSkiaObjects e.activeBrush (cloneCanvasState st) }

/-- `undo()`: refuse at index ≤ 0; otherwise decrement the index and
restore that snapshot.  The `getD` default is dead code: the history
invariant (claim C6) keeps the decremented index in range. -/
def undo (e : Engine) : Engine × Bool :=
  if e.historyIndex ≤ 0 then (e, false)
  else
    let idx := e.historyIndex - 1
    let e := { e with historyIndex := idx }
    let e := restoreState (e.history.getD idx.toNat e.canvasState) e
    (emit "history:undo" e, true)

/-- `redo()`: refuse at the newest entry; otherwise increment the index and
restore that snapshot. -/
def redo (e : Engine) : Engine × Bool :=
  if e.historyIndex ≥ (e.history.length : ℤ) - 1 then (e, false)
  else
    let idx := e.historyIndex + 1
    let e := { e with historyIndex := idx }
    let e := restoreState (e.history.getD idx.toNat e.canvasState) e
    (emit "history:redo" e, true)

/-- `updatePerformanceMetrics()`. -/
def updatePerformanceMetrics (now : ℤ) (e : Engine) : Engine :=
  let allStrokes := e.canvasState.layers.flatMap (·.strokes)
  let totalPoints := allStrokes.foldl (fun sum s => sum + s.points.length) 0
  { e with performanceMetrics :=
      { totalStrokes := allStrokes.length
        totalPoints := totalPoints
        totalLayers := e.canvasState.layers.length
        memoryUsage := totalPoints * 32
        averageStrokeLength :=
          if allStrokes.length > 0 then (totalPoints : ℚ) / allStrokes.length else 0
        drawingTime := if e.drawingStartTime > 0 then now - e.drawingStartTime else 0 } }

/-- Finalisation performed by `endStroke` on the current stroke: set
`completed`, rebuild path and paint. -/
def finalizeStroke (brush : BrushSettings) (cs : Stroke) : Stroke :=
  let cs := { cs with completed := true }
  { cs with path := some (createSkiaPath brush cs.points),
            paint := some (createSkiaPaint cs) }

/-- `endStroke()`: no-op unless drawing with a current stroke; finalise the
stroke, push it onto the active layer (when one exists — the `locked` flag
is not consulted here), update the metrics, emit `stroke:completed`, return
to the idle state. -/
def endStroke (now : ℤ) (e : Engine) : Engine :=
  if e.isDrawing = false then e else
  match e.currentStroke with
  | none => e
  | some cs =>
    let cs := finalizeStroke e.activeBrush cs
    let e :=
      match getActiveLayer e with
      | some _ =>
        let newLayers := updateFirstLayer e.canvasState.activeLayerId
          (fun l => { l with strokes := l.strokes ++ [cs] }) e.canvasState.layers
        { e with canvasState := { e.canvasState with layers := newLayers } }
      | none => e
    let e := updatePerformanceMetrics now e
    let e := emit "stroke:completed" e
    { e with currentStroke := none, isDrawing := false }

/-- `startStroke(point)`: auto-finalise a stroke already in progress; refuse
silently when the active layer is missing or locked; otherwise create the
stroke seeded with the raw point, compute its initial dynamic size/opacity,
build path and paint, take the undo checkpoint (`saveState`), and emit
`stroke:started`. -/
def startStroke (now : ℤ) (point : Point) (e : Engine) : Engine :=
  let e := if e.isDrawing then endStroke now e else e
  match getActiveLayer e with
  | none => e
  | some activeLayer =>
    if activeLayer.locked then e
    else
      let (e, sid) := generateStrokeId now e
      let stroke : Stroke :=
        { id := sid
          points := [point]
          color := e.activeColor
          size := calculateDynamicSize e.activeBrush point.pressure
          opacity := calculateDynamicOpacity e.activeBrush point.pressure
          tool := e.activeTool
          brushId := e.activeBrush.id
          timestamp := now
          completed := false }
      let stroke := { stroke with
        path := some (createSkiaPath e.activeBrush stroke.points),
        paint := some (createSkiaPaint stroke) }
      let e := { e with currentStroke := some stroke, isDrawing := true,
                        drawingStartTime := now }
      let e := saveState e
      emit "stroke:started" e

/-- `addStrokePoint(point)`: no-op unless drawing with a current stroke;
smooth the point against the stroke's stored points, append it, refresh
dynamic size/opacity from its pressure, rebuild the path, emit
`stroke:updated`. -/
def addStrokePoint (point : Point) (e : Engine) : Engine :=
  if e.isDrawing = false then e else
  match e.currentStroke with
  | none => e
  | some cs =>
    let smoothedPoint := smoothPoint e.activeBrush point cs.points
    let cs := { cs with points := cs.points ++ [smoothedPoint] }
    let cs := { cs with
      size := calculateDynamicSize e.activeBrush smoothedPoint.pressure
      opacity := calculateDynamicOpacity e.activeBrush smoothedPoint.pressure }
    let cs := { cs with path := some (createSkiaPath e.activeBrush cs.points) }
    emit "stroke:updated" { e with currentStroke := some cs }

/-- `setActiveLayer(layerId)`: false and untouched state when no layer has
the id; otherwise point `activeLayerId` at it (the `locked` flag is not
consulted) and emit `layer:activated`. -/
def setActiveLayer (layerId : String) (e : Engine) : Engine × Bool :=
  match e.canvasState.layers.find? (fun l => l.id = layerId) with
  | none => (e, false)
  | some _ =>
    let e := { e with canvasState := { e.canvasState with activeLayerId := layerId } }
    (emit "layer:activated" e, true)

/-- `createLayer(name?)`. -/
def createLayer (now : ℤ) (name : Option String) (e : Engine) : Engine :=
  let (e, lid) := generateLayerId now e
  let layer : Layer :=
    { id := lid
      name := name.getD ("Layer " ++ toString (e.canvasState.layers.length + 1))
      strokes := []
      opacity := 1
      blendMode := "SrcOver"
      visible := true
      locked := false
      order := e.canvasState.layers.length }
  let e := { e with canvasState :=
      { e.canvasState with layers := e.canvasState.layers ++ [layer] } }
  emit "layer:created" e

/-- `clearCanvas()`: checkpoint, then empty every layer's stroke list. -/
def clearCanvas (now : ℤ) (e : Engine) : Engine :=
  let e := saveState e
  let e := { e with canvasState :=
      { e.canvasState with layers :=
          e.canvasState.layers.map fun l => { l with strokes := [] } } }
  let e := updatePerformanceMetrics now e
  emit "canvas:cleared" e

/-- `clearActiveLayer()`: false when the active layer is missing; otherwise
checkpoint and empty that layer's stroke list. -/
def clearActiveLayer (now : ℤ) (e : Engine) : Engine × Bool :=
  match getActiveLayer e with
  | none => (e, false)
  | some _ =>
    let e := saveState e
    let newLayers := updateFirstLayer e.canvasState.activeLayerId
      (fun l => { l with strokes := [] }) e.canvasState.layers
    let e := { e with canvasState := { e.canvasState with layers := newLayers } }
    let e := updatePerformanceMetrics now e
    (emit "layer:cleared" e, true)

/-- `setBrush(brush)`: replace the active brush with a copy. -/
def setBrush (brush : BrushSettings) (e : Engine) : Engine :=
  emit "brush:changed" { e with activeBrush := brush }

/-- `setColor(color)`. -/
def setColor (color : String) (e : Engine) : Engine :=
  emit "color:changed" { e with activeColor := color }

/-- `setTool(tool)`. -/
def setTool (tool : Tool) (e : Engine) : Engine :=
  emit "tool:changed" { e with activeTool := tool }

/-- `setBrushSize(size)`: clamp to [1,100]. -/
def setBrushSize (size : ℚ) (e : Engine) : Engine :=
  emit "brush:size_changed"
    { e with activeBrush := { e.activeBrush with size := max 1 (min 100 size) } }

/-- `setBrushOpacity(opacity)`: clamp to [0,1]. -/
def setBrushOpacity (opacity : ℚ) (e : Engine) : Engine :=
  emit "brush:opacity_changed"
    { e with activeBrush := { e.activeBrush with opacity := max 0 (min 1 opacity) } }

/-- `setCanvasSize(width, height)`. -/
def setCanvasSize (w h : ℚ) (e : Engine) : Engine :=
  emit "canvas:resized"
    { e with canvasState := { e.canvasState with width := w, height := h } }

/-- `setBackgroundColor(color)`. -/
def setBackgroundColor (color : String) (e : Engine) : Engine :=
  emit "canvas:background_changed"
    { e with canvasState := { e.canvasState with backgroundColor := color } }

/-- Modelled from the spec: section 4.4 lists "toggle visibility/lock" among
the exposed layer operations, but no such method exists in the DrawingEngine
source; callers obtain `Layer` objects by reference (`getLayers`,
`createLayer`, `getActiveLayer`) and write the `locked` field directly,
which is how spec scenario 4 ("lock layer A") comes about.  This models that
direct field write on the referenced layer. -/
def setLayerLocked (layerId : String) (b : Bool) (e : Engine) : Engine :=
  let newLayers := updateFirstLayer layerId (fun l => { l with locked := b })
    e.canvasState.layers
  { e with canvasState := { e.canvasState with layers := newLayers } }

/-- The default active brush (`default_smooth`) from the field initialiser. -/
def defaultSmoothBrush : BrushSettings :=
  { id := "default_smooth"
    name := "Smooth Brush"
    type := "brush"
    size := 8
    opacity := 1
    flow := 1
    hardness := 0.8
    spacing := 0.1
    scattering := 0
    pressureSize := true
    pressureOpacity := true
    pressureFlow := false
    angleJitter := 0
    smoothing := 0.8
    taper := true
    blendMode := "SrcOver" }

/-- The engine as built by the private constructor: default canvas state,
then `initializeDefaultLayer()` creates "Layer 1" (unlocked, order 0) and
makes it active.  `now` is `Date.now()` at construction time. -/
def initialEngine (now : ℤ) : Engine :=
  let e0 : Engine :=
    { canvasState :=
        { layers := []
          activeLayerId := ""
          width := 1024
          height := 768
          backgroundColor := "#FFFFFF"
          zoom := 1
          panX := 0
          panY := 0 }
      currentStroke := none
      isDrawing := false
      drawingStartTime := 0
      activeBrush := defaultSmoothBrush
      activeColor := "#000000"
      activeTool := Tool.brush
      history := []
      historyIndex := -1
      maxHistorySize := 30
      strokeIdCounter := 0
      layerIdCounter := 0
      performanceMetrics :=
        { totalStrokes := 0, totalPoints := 0, totalLayers := 0
          memoryUsage := 0, averageStrokeLength := 0, drawingTime := 0 }
      events := [] }
  let (e0, lid) := generateLayerId now e0
  let defaultLayer : Layer :=
    { id := lid
      name := "Layer 1"
      strokes := []
      opacity := 1
      blendMode := "SrcOver"
      visible := true
      locked := false
      order := 0 }
  { e0 with canvasState :=
      { e0.canvasState with layers := [defaultLayer], activeLayerId := lid } }

/-- The public operations, as an alphabet for quantifying over call
sequences.  Every operation that reads `Date.now()` carries its `now`. -/
inductive Op where
  | opStartStroke (now : ℤ) (p : Point)
  | opAddStrokePoint (p : Point)
  | opEndStroke (now : ℤ)
  | opUndo
  | opRedo
  | opClearCanvas (now : ℤ)
  | opClearActiveLayer (now : ℤ)
  | opSetActiveLayer (id : String)
  | opCreateLayer (now : ℤ) (name : Option String)
  | opSetLayerLocked (id : String) (b : Bool)
  | opSetBrush (b : BrushSettings)
  | opSetColor (c : String)
  | opSetTool (t : Tool)
  | opSetBrushSize (s : ℚ)
  | opSetBrushOpacity (o : ℚ)
  | opSetCanvasSize (w h : ℚ)
  | opSetBackgroundColor (c : String)

/-- Interpret one operation. -/
def applyOp (e : Engine) : Op → Engine
  | Op.opStartStroke now p => startStroke now p e
  | Op.opAddStrokePoint p => addStrokePoint p e
  | Op.opEndStroke now => endStroke now e
  | Op.opUndo => (undo e).1
  | Op.opRedo => (redo e).1
  | Op.opClearCanvas now => clearCanvas now e
  | Op.opClearActiveLayer now => (clearActiveLayer now e).1
  | Op.opSetActiveLayer lid => (setActiveLayer lid e).1
  | Op.opCreateLayer now name => createLayer now name e
  | Op.opSetLayerLocked lid b => setLayerLocked lid b e
  | Op.opSetBrush b => setBrush b e
  | Op.opSetColor c => setColor c e
  | Op.opSetTool t => setTool t e
  | Op.opSetBrushSize s => setBrushSize s e
  | Op.opSetBrushOpacity o => setBrushOpacity o e
  | Op.opSetCanvasSize w h => setCanvasSize w h e
  | Op.opSetBackgroundColor c => setBackgroundColor c e

/-- Interpret a call sequence. -/
def applyOps (e : Engine) (ops : List Op) : Engine :=
  ops.foldl applyOp e

/-! ## Theorems -/

/-- Shared guard lemma: an idle engine with a locked or missing active
layer refuses `startStroke` without any state change. -/
theorem startStroke_guard_noop (e : Engine) (now : ℤ) (p : Point)
    (hIdle : e.isDrawing = false)
    (hGuard : (getActiveLayer e).map Layer.locked = none ∨
      (getActiveLayer e).map Layer.locked = some true) :
    startStroke now p e = e := by
  unfold startStroke
  rw [hIdle]
  simp only [Bool.false_eq_true, if_false]
  cases hA : getActiveLayer e with
  | none => simp [hA]
  | some l =>
    rw [hA] at hGuard
    rcases hGuard with h | h
    · simp at h
    · have hl : l.locked = true := by simpa using h
      simp [hA, hl]

/-- C3: if the engine is idle and the active layer is locked or missing,
`startStroke` is a silent no-op — the whole engine state (current stroke,
drawing flag, canvas, history, event log) is unchanged. -/
theorem startStroke_locked_or_missing_noop (e : Engine) (now : ℤ) (p : Point)
    (hIdle : e.isDrawing = false)
    (hGuard : (getActiveLayer e).map Layer.locked = none ∨
      (getActiveLayer e).map Layer.locked = some true) :
    startStroke now p e = e :=
  startStroke_guard_noop e now p hIdle hGuard

/-- Witness state for C3/C10: a fresh engine whose only layer has been
locked by its caller. -/
def lockedEngineW : Engine := setLayerLocked "layer_0_1" true (initialEngine 0)

/-- Witness for C3: on `lockedEngineW`, `startStroke` changes nothing. -/
theorem startStroke_locked_or_missing_noop_witness :
    (lockedEngineW.isDrawing = false ∧
      (getActiveLayer lockedEngineW).map Layer.locked = some true) ∧
    startStroke 5 { x := 0, y := 0, pressure := 1, timestamp := 0 } lockedEngineW
      = lockedEngineW :=
  ⟨⟨rfl, rfl⟩,
    startStroke_locked_or_missing_noop lockedEngineW 5
      { x := 0, y := 0, pressure := 1, timestamp := 0 } rfl (Or.inr rfl)⟩

/-- C7: `undo` at the bottom of the stack returns false and leaves the
engine (in particular its `CanvasState`) untouched; `redo` at the newest
entry does the same. -/
theorem undo_redo_at_ends_noop (e : Engine) :
    (e.historyIndex ≤ 0 → undo e = (e, false)) ∧
    ((e.history.length : ℤ) - 1 ≤ e.historyIndex → redo e = (e, false)) := by
  constructor
  · intro h
    unfold undo
    rw [if_pos h]
  · intro h
    unfold redo
    rw [if_pos (by omega)]

/-- Witness for C7: a fresh engine is both at the bottom and at the top of
its (empty) history, and both operations refuse and change nothing. -/
theorem undo_redo_at_ends_noop_witness :
    ((initialEngine 0).historyIndex ≤ 0 ∧
      ((initialEngine 0).history.length : ℤ) - 1 ≤ (initialEngine 0).historyIndex) ∧
    undo (initialEngine 0) = (initialEngine 0, false) ∧
    redo (initialEngine 0) = (initialEngine 0, false) :=
  ⟨⟨by decide, by decide⟩,
    (undo_redo_at_ends_noop (initialEngine 0)).1 (by decide),
    (undo_redo_at_ends_noop (initialEngine 0)).2 (by decide)⟩

/-- C10: `setActiveLayer` with an unknown id returns false and leaves the
engine untouched; with the id of any existing layer — locked or not — it
returns true and repoints `activeLayerId` (the only canvas change), the
lock being checked only at `startStroke`. -/
theorem setActiveLayer_spec (e : Engine) (lid : String) :
    ((∀ l ∈ e.canvasState.layers, l.id ≠ lid) → setActiveLayer lid e = (e, false)) ∧
    (∀ l ∈ e.canvasState.layers, l.id = lid →
      setActiveLayer lid e =
        (emit "layer:activated"
          { e with canvasState := { e.canvasState with activeLayerId := lid } }, true)) := by
  constructor
  · intro h
    unfold setActiveLayer
    have : e.canvasState.layers.find? (fun l => l.id = lid) = none := by
      rw [List.find?_eq_none]
      intro x hx
      simp [h x hx]
    rw [this]
  · intro l hl hid
    unfold setActiveLayer
    have hsome : (e.canvasState.layers.find? (fun l => l.id = lid)).isSome := by
      rw [List.find?_isSome]
      exact ⟨l, hl, by simp [hid]⟩
    cases hfind : e.canvasState.layers.find? (fun l => l.id = lid) with
    | none => rw [hfind] at hsome; simp at hsome
    | some y => rfl

/-- The locked default layer of `lockedEngineW`, written out. -/
def lockedLayerW : Layer :=
  { id := "layer_0_1", name := "Layer 1", strokes := [], opacity := 1,
    blendMode := "SrcOver", visible := true, locked := true, order := 0 }

/-- Witness for C10: on a fresh engine, activating an unknown id fails and
changes nothing; activating the default layer's id even while it is locked
succeeds. -/
theorem setActiveLayer_spec_witness :
    ((∀ l ∈ (initialEngine 0).canvasState.layers, l.id ≠ "missing") ∧
      setActiveLayer "missing" (initialEngine 0) = (initialEngine 0, false)) ∧
    (lockedLayerW ∈ lockedEngineW.canvasState.layers ∧ lockedLayerW.id = "layer_0_1" ∧
      lockedLayerW.locked = true ∧
      setActiveLayer "layer_0_1" lockedEngineW =
        (emit "layer:activated"
          { lockedEngineW with canvasState :=
              { lockedEngineW.canvasState with activeLayerId := "layer_0_1" } }, true)) :=
  ⟨⟨by decide, (setActiveLayer_spec (initialEngine 0) "missing").1 (by decide)⟩,
    ⟨by decide, rfl, rfl,
      (setActiveLayer_spec lockedEngineW "layer_0_1").2 lockedLayerW (by decide) rfl⟩⟩

/-- C4 (amended): the dynamics functions perform no clamping.  With the
pressure flag off the result is exactly the base value; with it on the
result is the unclamped line `base*0.1 + (base - base*0.1)*pressure`, which
lies in `[base*0.1, base]` whenever the pressure is in `[0,1]` (and leaves
that range for out-of-range pressures, see the counterexample). -/
theorem dynamics_unclamped_bounds (brush : BrushSettings) (p : ℚ)
    (hs : 0 ≤ brush.size) (ho : 0 ≤ brush.opacity) :
    (brush.pressureSize = false → calculateDynamicSize brush p = brush.size) ∧
    (brush.pressureSize = true →
      calculateDynamicSize brush p
        = brush.size * 0.1 + (brush.size - brush.size * 0.1) * p) ∧
    (brush.pressureSize = true → 0 ≤ p → p ≤ 1 →
      brush.size * 0.1 ≤ calculateDynamicSize brush p ∧
        calculateDynamicSize brush p ≤ brush.size) ∧
    (brush.pressureOpacity = false → calculateDynamicOpacity brush p = brush.opacity) ∧
    (brush.pressureOpacity = true →
      calculateDynamicOpacity brush p
        = brush.opacity * 0.1 + (brush.opacity - brush.opacity * 0.1) * p) ∧
    (brush.pressureOpacity = true → 0 ≤ p → p ≤ 1 →
      brush.opacity * 0.1 ≤ calculateDynamicOpacity brush p ∧
        calculateDynamicOpacity brush p ≤ brush.opacity) := by
  unfold calculateDynamicSize calculateDynamicOpacity
  refine ⟨fun h => by simp [h], fun h => by simp [h], fun h hp0 hp1 => ?_,
    fun h => by simp [h], fun h => by simp [h], fun h hp0 hp1 => ?_⟩
  · simp only [h, Bool.not_true, Bool.false_eq_true, if_false]
    constructor <;> nlinarith
  · simp only [h, Bool.not_true, Bool.false_eq_true, if_false]
    constructor <;> nlinarith

/-- Witness for C4's amended theorem at the default brush and pressure 0. -/
theorem dynamics_unclamped_bounds_witness :
    ((0:ℚ) ≤ defaultSmoothBrush.size ∧ (0:ℚ) ≤ defaultSmoothBrush.opacity) ∧
    ((defaultSmoothBrush.pressureSize = false →
        calculateDynamicSize defaultSmoothBrush 0 = defaultSmoothBrush.size) ∧
      (defaultSmoothBrush.pressureSize = true →
        calculateDynamicSize defaultSmoothBrush 0
          = defaultSmoothBrush.size * 0.1
            + (defaultSmoothBrush.size - defaultSmoothBrush.size * 0.1) * 0) ∧
      (defaultSmoothBrush.pressureSize = true → (0:ℚ) ≤ 0 → (0:ℚ) ≤ 1 →
        defaultSmoothBrush.size * 0.1 ≤ calculateDynamicSize defaultSmoothBrush 0 ∧
          calculateDynamicSize defaultSmoothBrush 0 ≤ defaultSmoothBrush.size) ∧
      (defaultSmoothBrush.pressureOpacity = false →
        calculateDynamicOpacity defaultSmoothBrush 0 = defaultSmoothBrush.opacity) ∧
      (defaultSmoothBrush.pressureOpacity = true →
        calculateDynamicOpacity defaultSmoothBrush 0
          = defaultSmoothBrush.opacity * 0.1
            + (defaultSmoothBrush.opacity - defaultSmoothBrush.opacity * 0.1) * 0) ∧
      (defaultSmoothBrush.pressureOpacity = true → (0:ℚ) ≤ 0 → (0:ℚ) ≤ 1 →
        defaultSmoothBrush.opacity * 0.1 ≤ calculateDynamicOpacity defaultSmoothBrush 0 ∧
          calculateDynamicOpacity defaultSmoothBrush 0 ≤ defaultSmoothBrush.opacity)) :=
  ⟨⟨by decide, by decide⟩,
    dynamics_unclamped_bounds defaultSmoothBrush 0 (by decide) (by decide)⟩

/-- Counterexample for C4 as stated: the claim asserts pressure is clamped
to [0,1] before use, so the width would lie in `[baseSize*0.1, baseSize]`
for every pressure.  At pressure 2 on the default brush (pressureSize on,
size 8) the code returns 15.2, above baseSize = 8 — no clamping happens. -/
theorem dynamics_clamping_counterexample :
    defaultSmoothBrush.pressureSize = true ∧
    calculateDynamicSize defaultSmoothBrush 2 = 76/5 ∧
    ¬ calculateDynamicSize defaultSmoothBrush 2 ≤ defaultSmoothBrush.size := by
  refine ⟨rfl, ?_, ?_⟩ <;> norm_num [calculateDynamicSize, defaultSmoothBrush]

/-- First stroke's raw point in the C1 scenario. -/
def c1Point1 : Point := { x := 0, y := 0, pressure := 1, timestamp := 0 }

/-- Second stroke's raw point in the C1 scenario. -/
def c1Point2 : Point := { x := 10, y := 10, pressure := 1, timestamp := 20 }

/-- The C1 scenario: a fresh engine, stroke1 (start/end), stroke2
(start/end). -/
def c1Engine : Engine := applyOps (initialEngine 0)
  [Op.opStartStroke 10 c1Point1, Op.opEndStroke 11,
   Op.opStartStroke 20 c1Point2, Op.opEndStroke 21]

/-- Counterexample for C1 as stated: after drawing stroke1 and stroke2 on a
fresh engine, one `undo()` does return true, but the active layer is left
with NO strokes at all — not with exactly stroke1.  `undo` decrements the
position and restores the entry below stroke2's start checkpoint, which is
the snapshot taken at stroke1's start (the empty canvas). -/
theorem undo_after_two_strokes_counterexample :
    (getActiveLayer c1Engine).map (fun l => l.strokes.length) = some 2 ∧
    (undo c1Engine).2 = true ∧
    (getActiveLayer (undo c1Engine).1).map Layer.strokes = some [] :=
  ⟨rfl, rfl, rfl⟩

/-- C1 (amended): one `undo()` after the two strokes returns true but
restores the snapshot taken at stroke1's start — the empty canvas.  The
snapshot taken at stroke2's start (the state holding exactly stroke1,
completed, with its single raw point) stays at the top of the history and
is what a following `redo()` restores. -/
theorem undo_restores_stroke1_start_snapshot :
    ((undo c1Engine).2 = true ∧
      (getActiveLayer (undo c1Engine).1).map Layer.strokes = some []) ∧
    c1Engine.history.length = 2 ∧
    c1Engine.historyIndex = 1 ∧
    (c1Engine.history.getD 1 c1Engine.canvasState).layers.map
        (fun l => l.strokes.map Stroke.points) = [[[c1Point1]]] ∧
    ((redo (undo c1Engine).1).2 = true ∧
      (getActiveLayer (redo (undo c1Engine).1).1).map
          (fun l => l.strokes.map Stroke.points) = some [[c1Point1]] ∧
      (getActiveLayer (redo (undo c1Engine).1).1).map
          (fun l => l.strokes.map Stroke.completed) = some [true]) :=
  ⟨⟨rfl, rfl⟩, rfl, rfl, rfl, ⟨rfl, rfl, rfl⟩⟩

/-- Updating the first layer matching an id commutes with looking that id
up: the lookup then returns the updated layer (provided the update keeps
the id). -/
theorem find?_updateFirstLayer (lid : String) (f : Layer → Layer)
    (hpres : ∀ l, (f l).id = l.id) :
    ∀ (layers : List Layer) (l : Layer),
      layers.find? (fun x => x.id = lid) = some l →
      (updateFirstLayer lid f layers).find? (fun x => x.id = lid) = some (f l) := by
  intro layers
  induction layers with
  | nil => intro l h; simp at h
  | cons a rest ih =>
    intro l h
    unfold updateFirstLayer
    by_cases ha : a.id = lid
    · rw [if_pos ha]
      rw [List.find?_cons_of_pos _ (by simpa using ha)] at h
      cases h
      rw [List.find?_cons_of_pos _ (by simp [hpres, ha])]
    · rw [if_neg ha]
      rw [List.find?_cons_of_neg _ (by simpa using ha)] at h
      rw [List.find?_cons_of_neg _ (by simpa using ha)]
      exact ih l h

/-- The raw point of the C2 scenario. -/
def c2Point : Point := { x := 0, y := 0, pressure := 1, timestamp := 0 }

/-- C2 scenario, mid-stroke: stroke started on the (unlocked) default
layer, after which the caller locks that layer. -/
def c2MidEngine : Engine := applyOps (initialEngine 0)
  [Op.opStartStroke 10 c2Point, Op.opSetLayerLocked "layer_0_1" true]

/-- C2 scenario, completed: `endStroke` then runs against the now-locked
layer. -/
def c2Engine : Engine := endStroke 11 c2MidEngine

/-- Counterexample for C2 as stated: in the operation sequence
startStroke → lock the active layer → endStroke, the finished stroke IS
appended to the layer even though its locked flag is true at the moment of
the append. -/
theorem locked_layer_receives_stroke_counterexample :
    (c2MidEngine.isDrawing = true ∧
      (getActiveLayer c2MidEngine).map Layer.locked = some true ∧
      (getActiveLayer c2MidEngine).map (fun l => l.strokes.length) = some 0) ∧
    (getActiveLayer c2Engine).map (fun l => (l.locked, l.strokes.length))
      = some (true, 1) :=
  ⟨⟨rfl, rfl, rfl⟩, rfl⟩

/-- C2 (amended): the lock is enforced only at `startStroke` — an idle
engine refuses to start a stroke on a locked active layer — but `endStroke`
does not re-check it: whatever the active layer's locked flag is at commit
time, the current stroke is appended to it.  So a stroke started while its
layer was unlocked is still committed if the layer is locked by the time
`endStroke` runs. -/
theorem lock_checked_only_at_start (e : Engine) (now : ℤ) (p : Point) :
    (e.isDrawing = false →
      (getActiveLayer e).map Layer.locked = some true →
      startStroke now p e = e) ∧
    (∀ cs l, e.isDrawing = true → e.currentStroke = some cs →
      getActiveLayer e = some l →
      (getActiveLayer (endStroke now e)).map Layer.strokes
        = some (l.strokes ++ [finalizeStroke e.activeBrush cs])) := by
  constructor
  · intro h1 h2
    exact startStroke_guard_noop e now p h1 (Or.inr h2)
  · intro cs l hD hcs hl
    have hfind := find?_updateFirstLayer e.canvasState.activeLayerId
      (fun x => { x with strokes := x.strokes ++ [finalizeStroke e.activeBrush cs] })
      (fun _ => rfl) e.canvasState.layers l hl
    unfold endStroke
    rw [hD, hcs, hl]
    simp only [Bool.true_eq_false, if_false]
    simp [getActiveLayer, updatePerformanceMetrics, emit, hfind]

/-- Witness for C2's amended theorem, on the concrete mid-stroke state of
the scenario: the locked active layer receives the finalised current
stroke. -/
theorem lock_checked_only_at_start_witness :
    (c2MidEngine.isDrawing = true ∧
      (getActiveLayer c2MidEngine).map Layer.locked = some true) ∧
    (getActiveLayer (endStroke 11 c2MidEngine)).map Layer.strokes
      = some (((getActiveLayer c2MidEngine).get rfl).strokes
          ++ [finalizeStroke c2MidEngine.activeBrush (c2MidEngine.currentStroke.get rfl)]) :=
  ⟨⟨rfl, rfl⟩,
    (lock_checked_only_at_start c2MidEngine 11 c2Point).2
      (c2MidEngine.currentStroke.get rfl) ((getActiveLayer c2MidEngine).get rfl)
      rfl (@Option.some_get _ c2MidEngine.currentStroke rfl).symm
      (@Option.some_get _ (getActiveLayer c2MidEngine) rfl).symm⟩

/-- The blend step in the words of the spec (claim-side definition used
for the refinement comparison in C5): the new stored point is
`previous + (raw - previous) * (1 - smoothingFactor)` coordinate-wise, with
pressure, timestamp, velocity and tilt taken from the raw input. -/
def blendSpec (sf : ℚ) (prev raw : Point) : Point :=
  { x := prev.x + (raw.x - prev.x) * (1 - sf)
    y := prev.y + (raw.y - prev.y) * (1 - sf)
    pressure := raw.pressure
    timestamp := raw.timestamp
    velocity := raw.velocity
    tilt := raw.tilt }

/-- The tail of the claimed sequence: each stored point is the blend of the
previous stored point with the next raw input. -/
def smoothFrom (sf : ℚ) (prev : Point) : List Point → List Point
  | [] => []
  | raw :: rest => blendSpec sf prev raw :: smoothFrom sf (blendSpec sf prev raw) rest

/-- The stored point sequence described by claim C5: the first raw point
unchanged, then the blend recurrence. -/
def smoothedSeqSpec (sf : ℚ) (first : Point) (raws : List Point) : List Point :=
  first :: smoothFrom sf first raws

/-- On a non-empty previous-point list, `smoothPoint` is exactly the
spec-side blend against the last stored point. -/
theorem smoothPoint_eq_blendSpec (brush : BrushSettings) (raw lst : Point)
    (pts : List Point) (h : pts.getLast? = some lst) :
    smoothPoint brush raw pts = blendSpec brush.smoothing lst raw := by
  unfold smoothPoint blendSpec
  rw [h]

/-- The stroke as rebuilt by one `addStrokePoint` call: smoothed point
appended, dynamic size/opacity refreshed, path rebuilt. -/
def appendedStroke (b : BrushSettings) (cs : Stroke) (raw : Point) : Stroke :=
  let sp := smoothPoint b raw cs.points
  { cs with
      points := cs.points ++ [sp]
      size := calculateDynamicSize b sp.pressure
      opacity := calculateDynamicOpacity b sp.pressure
      path := some (createSkiaPath b (cs.points ++ [sp])) }

/-- While drawing, `addStrokePoint` replaces the current stroke by
`appendedStroke` and logs `stroke:updated`, leaving everything else
identical. -/
theorem addStrokePoint_drawing (e : Engine) (cs : Stroke) (raw : Point)
    (hD : e.isDrawing = true) (hcs : e.currentStroke = some cs) :
    addStrokePoint raw e =
      emit "stroke:updated"
        { e with currentStroke := some (appendedStroke e.activeBrush cs raw) } := by
  unfold addStrokePoint appendedStroke
  rw [hD, hcs]
  rfl

/-- Folding `addStrokePoint` over a list of raw inputs extends the current
stroke by exactly the blend recurrence started from its last stored point. -/
theorem addStrokePoint_fold (raws : List Point) :
    ∀ (e : Engine) (cs : Stroke) (lst : Point),
      e.isDrawing = true → e.currentStroke = some cs →
      cs.points.getLast? = some lst →
      ((raws.foldl (fun acc q => addStrokePoint q acc) e).currentStroke).map Stroke.points
        = some (cs.points ++ smoothFrom e.activeBrush.smoothing lst raws) := by
  induction raws with
  | nil =>
    intro e cs lst hD hcs _
    simp [hcs, smoothFrom]
  | cons raw rest ih =>
    intro e cs lst hD hcs hlast
    rw [List.foldl_cons]
    have hsm : smoothPoint e.activeBrush raw cs.points
        = blendSpec e.activeBrush.smoothing lst raw :=
      smoothPoint_eq_blendSpec e.activeBrush raw lst cs.points hlast
    have hstep := addStrokePoint_drawing e cs raw hD hcs
    have hlast' : (appendedStroke e.activeBrush cs raw).points.getLast?
        = some (smoothPoint e.activeBrush raw cs.points) :=
      List.getLast?_concat _
    have hbrush : (addStrokePoint raw e).activeBrush = e.activeBrush := by
      rw [hstep]; rfl
    have htail := ih (addStrokePoint raw e) (appendedStroke e.activeBrush cs raw)
      (smoothPoint e.activeBrush raw cs.points)
      (by rw [hstep]; exact hD)
      (by rw [hstep]; rfl)
      hlast'
    rw [hbrush] at htail
    rw [htail]
    show some ((cs.points ++ [smoothPoint e.activeBrush raw cs.points])
        ++ smoothFrom e.activeBrush.smoothing (smoothPoint e.activeBrush raw cs.points) rest)
      = some (cs.points ++ smoothFrom e.activeBrush.smoothing lst (raw :: rest))
    simp only [smoothFrom]
    rw [← hsm]
    simp [List.append_assoc]

/-- `saveState` touches only `history`/`historyIndex`. -/
theorem saveState_preserves (e : Engine) :
    (saveState e).isDrawing = e.isDrawing ∧ (saveState e).activeBrush = e.activeBrush ∧
    (saveState e).currentStroke = e.currentStroke ∧
    (saveState e).canvasState = e.canvasState ∧
    (saveState e).maxHistorySize = e.maxHistorySize := by
  unfold saveState
  dsimp only
  split <;> exact ⟨rfl, rfl, rfl, rfl, rfl⟩

/-- `startStroke` on an idle engine whose active layer exists and is
unlocked: the engine enters the drawing state, the active brush is
untouched, and the current stroke holds exactly the raw seed point. -/
theorem startStroke_unlocked_fields (e : Engine) (now : ℤ) (p0 : Point) (l : Layer)
    (hIdle : e.isDrawing = false) (hl : getActiveLayer e = some l)
    (hunlock : l.locked = false) :
    (startStroke now p0 e).isDrawing = true ∧
    (startStroke now p0 e).activeBrush = e.activeBrush ∧
    ((startStroke now p0 e).currentStroke).map Stroke.points = some [p0] ∧
    ((startStroke now p0 e).currentStroke).isSome = true := by
  unfold startStroke
  rw [hIdle]
  simp only [Bool.false_eq_true, if_false]
  rw [hl]
  simp only [hunlock, Bool.false_eq_true, if_false]
  unfold generateStrokeId
  refine ⟨?_, ?_, ?_, ?_⟩ <;>
    simp [emit, (saveState_preserves _).1, (saveState_preserves _).2.1,
      (saveState_preserves _).2.2.1]

/-- C5: a stroke built by `startStroke` followed by any run of
`addStrokePoint` calls stores exactly the claimed sequence: the raw first
point unchanged (never smoothed), then each later stored point equal to the
previous stored point blended with the raw input by the factor
`1 - smoothing` of the active brush, with pressure and timestamp taken from
the raw input. -/
theorem stroke_points_follow_smoothing_recurrence (e : Engine) (now : ℤ)
    (p0 : Point) (raws : List Point)
    (hIdle : e.isDrawing = false)
    (hLayer : (getActiveLayer e).map Layer.locked = some false) :
    ((raws.foldl (fun acc q => addStrokePoint q acc)
        (startStroke now p0 e)).currentStroke).map Stroke.points
      = some (smoothedSeqSpec e.activeBrush.smoothing p0 raws) := by
  obtain ⟨l, hl, hlock⟩ := Option.map_eq_some'.mp hLayer
  obtain ⟨hD, hB, hPts, hS⟩ := startStroke_unlocked_fields e now p0 l hIdle hl hlock
  obtain ⟨cs, hcs⟩ := Option.isSome_iff_exists.mp hS
  have hpts : cs.points = [p0] := by
    rw [hcs] at hPts
    simpa using hPts
  have hfold := addStrokePoint_fold raws (startStroke now p0 e) cs p0 hD hcs
    (by rw [hpts]; rfl)
  rw [hB] at hfold
  rw [hfold, hpts]
  rfl

/-- Seed point for the C5 witness run. -/
def c5First : Point := { x := 0, y := 0, pressure := 1, timestamp := 0 }

/-- Second raw input for the C5 witness run. -/
def c5Raw1 : Point := { x := 10, y := 0, pressure := 1, timestamp := 5 }

/-- Witness for C5 on a fresh engine with one added point. -/
theorem stroke_points_follow_smoothing_recurrence_witness :
    ((initialEngine 0).isDrawing = false ∧
      (getActiveLayer (initialEngine 0)).map Layer.locked = some false) ∧
    (([c5Raw1].foldl (fun acc q => addStrokePoint q acc)
        (startStroke 3 c5First (initialEngine 0))).currentStroke).map Stroke.points
      = some (smoothedSeqSpec (initialEngine 0).activeBrush.smoothing c5First [c5Raw1]) :=
  ⟨⟨rfl, rfl⟩,
    stroke_points_follow_smoothing_recurrence (initialEngine 0) 3 c5First [c5Raw1]
      rfl rfl⟩

/-- The history well-formedness invariant: the stack is bounded by the
configured maximum (30), the position stays one below the length, and a
position of -1 happens only while the stack is empty. -/
def historyWF (e : Engine) : Prop :=
  e.maxHistorySize = 30 ∧
  e.history.length ≤ 30 ∧
  -1 ≤ e.historyIndex ∧
  e.historyIndex < (e.history.length : ℤ) ∧
  (e.historyIndex = -1 → e.history.length = 0)

/-- The invariant only mentions the three history fields. -/
theorem historyWF_congr (e e' : Engine)
    (hh : e'.history = e.history) (hi : e'.historyIndex = e.historyIndex)
    (hm : e'.maxHistorySize = e.maxHistorySize) (h : historyWF e) : historyWF e' := by
  unfold historyWF at *
  rw [hh, hi, hm]
  exact h

/-- `endStroke` never touches the history fields. -/
theorem endStroke_history_fields (now : ℤ) (e : Engine) :
    (endStroke now e).history = e.history ∧
    (endStroke now e).historyIndex = e.historyIndex ∧
    (endStroke now e).maxHistorySize = e.maxHistorySize := by
  unfold endStroke
  dsimp only
  split
  · exact ⟨rfl, rfl, rfl⟩
  · split
    · exact ⟨rfl, rfl, rfl⟩
    · split <;> exact ⟨rfl, rfl, rfl⟩

/-- `addStrokePoint` never touches the history fields. -/
theorem addStrokePoint_history_fields (p : Point) (e : Engine) :
    (addStrokePoint p e).history = e.history ∧
    (addStrokePoint p e).historyIndex = e.historyIndex ∧
    (addStrokePoint p e).maxHistorySize = e.maxHistorySize := by
  unfold addStrokePoint
  dsimp only
  split
  · exact ⟨rfl, rfl, rfl⟩
  · split <;> exact ⟨rfl, rfl, rfl⟩

/-- `saveState` keeps the invariant: it appends the fresh snapshot and, on
overflow, evicts the head and pulls the index back. -/
theorem saveState_historyWF (e : Engine) (h : historyWF e) :
    historyWF (saveState e) := by
  obtain ⟨h0, h1, h2, h3, h4⟩ := h
  have htake : (e.history.take (e.historyIndex + 1).toNat).length
      = (e.historyIndex + 1).toNat := by
    rw [List.length_take]
    omega
  unfold saveState historyWF
  dsimp only
  split_ifs with hover
  · rw [h0] at hover
    simp only [List.length_append, List.length_take, List.length_singleton,
      List.length_drop] at hover ⊢
    refine ⟨h0, ?_, ?_, ?_, ?_⟩ <;> omega
  · rw [h0] at hover
    simp only [List.length_append, List.length_take, List.length_singleton] at hover ⊢
    refine ⟨h0, ?_, ?_, ?_, ?_⟩ <;> omega

/-- `undo` keeps the invariant. -/
theorem undo_historyWF (e : Engine) (h : historyWF e) : historyWF (undo e).1 := by
  obtain ⟨h0, h1, h2, h3, h4⟩ := h
  unfold undo restoreState emit historyWF
  dsimp only
  split_ifs with hle
  · exact ⟨h0, h1, h2, h3, h4⟩
  · exact ⟨h0, h1, by dsimp only; omega, by dsimp only; omega, by dsimp only; omega⟩

/-- `redo` keeps the invariant. -/
theorem redo_historyWF (e : Engine) (h : historyWF e) : historyWF (redo e).1 := by
  obtain ⟨h0, h1, h2, h3, h4⟩ := h
  unfold redo restoreState emit historyWF
  dsimp only
  split_ifs with hge
  · exact ⟨h0, h1, h2, h3, h4⟩
  · exact ⟨h0, h1, by dsimp only; omega, by dsimp only; omega, by dsimp only; omega⟩

/-- `startStroke` keeps the invariant (it checkpoints through `saveState`
after possibly auto-finalising a previous stroke). -/
theorem startStroke_historyWF (now : ℤ) (p : Point) (e : Engine) (h : historyWF e) :
    historyWF (startStroke now p e) := by
  unfold startStroke
  dsimp only
  have hEnd : historyWF (if e.isDrawing then endStroke now e else e) := by
    split
    · exact historyWF_congr _ _ (endStroke_history_fields now e).1
        (endStroke_history_fields now e).2.1 (endStroke_history_fields now e).2.2 h
    · exact h
  cases hA : getActiveLayer (if e.isDrawing then endStroke now e else e) with
  | none => simp only [hA]; exact hEnd
  | some l =>
    simp only [hA]
    by_cases hlock : l.locked
    · simp only [hlock, if_true]
      exact hEnd
    · simp only [hlock, Bool.false_eq_true, if_false]
      unfold generateStrokeId
      dsimp only
      exact historyWF_congr _ _ rfl rfl rfl
        (saveState_historyWF _ (historyWF_congr _ _ rfl rfl rfl hEnd))

/-- `clearCanvas` keeps the invariant. -/
theorem clearCanvas_historyWF (now : ℤ) (e : Engine) (h : historyWF e) :
    historyWF (clearCanvas now e) :=
  historyWF_congr _ _ rfl rfl rfl (saveState_historyWF e h)

/-- `clearActiveLayer` keeps the invariant. -/
theorem clearActiveLayer_historyWF (now : ℤ) (e : Engine) (h : historyWF e) :
    historyWF (clearActiveLayer now e).1 := by
  unfold clearActiveLayer
  dsimp only
  cases hA : getActiveLayer e with
  | none => simp only [hA]; exact h
  | some l =>
    simp only [hA]
    exact historyWF_congr _ _ rfl rfl rfl (saveState_historyWF e h)

/-- Every public operation keeps the invariant. -/
theorem applyOp_historyWF (e : Engine) (op : Op) (h : historyWF e) :
    historyWF (applyOp e op) := by
  cases op with
  | opStartStroke now p => exact startStroke_historyWF now p e h
  | opAddStrokePoint p =>
    exact historyWF_congr _ _ (addStrokePoint_history_fields p e).1
      (addStrokePoint_history_fields p e).2.1 (addStrokePoint_history_fields p e).2.2 h
  | opEndStroke now =>
    exact historyWF_congr _ _ (endStroke_history_fields now e).1
      (endStroke_history_fields now e).2.1 (endStroke_history_fields now e).2.2 h
  | opUndo => exact undo_historyWF e h
  | opRedo => exact redo_historyWF e h
  | opClearCanvas now => exact clearCanvas_historyWF now e h
  | opClearActiveLayer now => exact clearActiveLayer_historyWF now e h
  | opSetActiveLayer lid =>
    show historyWF (setActiveLayer lid e).1
    unfold setActiveLayer
    dsimp only
    cases hA : e.canvasState.layers.find? (fun l => l.id = lid) with
    | none => simp only [hA]; exact h
    | some l => simp only [hA]; exact historyWF_congr _ _ rfl rfl rfl h
  | opCreateLayer now name => exact historyWF_congr _ _ rfl rfl rfl h
  | opSetLayerLocked lid b => exact historyWF_congr _ _ rfl rfl rfl h
  | opSetBrush b => exact historyWF_congr _ _ rfl rfl rfl h
  | opSetColor c => exact historyWF_congr _ _ rfl rfl rfl h
  | opSetTool t => exact historyWF_congr _ _ rfl rfl rfl h
  | opSetBrushSize s => exact historyWF_congr _ _ rfl rfl rfl h
  | opSetBrushOpacity o => exact historyWF_congr _ _ rfl rfl rfl h
  | opSetCanvasSize w hh => exact historyWF_congr _ _ rfl rfl rfl h
  | opSetBackgroundColor c => exact historyWF_congr _ _ rfl rfl rfl h

/-- The invariant is preserved along any operation sequence. -/
theorem applyOps_historyWF (ops : List Op) (e : Engine) (h : historyWF e) :
    historyWF (applyOps e ops) := by
  induction ops generalizing e with
  | nil => exact h
  | cons op rest ih => exact ih (applyOp e op) (applyOp_historyWF e op h)

/-- A fresh engine satisfies the invariant. -/
theorem initialEngine_historyWF (t : ℤ) : historyWF (initialEngine t) :=
  ⟨rfl, by norm_num [initialEngine, generateLayerId], by norm_num [initialEngine, generateLayerId],
    by norm_num [initialEngine, generateLayerId], fun _ => by norm_num [initialEngine, generateLayerId]⟩

/-- C6: after any sequence of public operations on a fresh engine the
history stack holds at most maxHistorySize = 30 snapshots and, as soon as
at least one checkpoint exists, the position is a valid index into the
stack; moreover a checkpoint taken with the stack full and the position at
the top evicts exactly the oldest entry (the stack's head) while the
position stays at the top. -/
theorem history_bounded_and_index_valid (ops : List Op) (t : ℤ) :
    ((applyOps (initialEngine t) ops).history.length ≤ 30 ∧
      ((applyOps (initialEngine t) ops).history ≠ [] →
        0 ≤ (applyOps (initialEngine t) ops).historyIndex ∧
          (applyOps (initialEngine t) ops).historyIndex
            < ((applyOps (initialEngine t) ops).history.length : ℤ))) ∧
    (∀ s : Engine, s.maxHistorySize = 30 → s.history.length = 30 →
      s.historyIndex = 29 →
      (saveState s).history = s.history.drop 1 ++ [cloneCanvasState s.canvasState] ∧
      (saveState s).historyIndex = 29) := by
  constructor
  · obtain ⟨h0, h1, h2, h3, h4⟩ :=
      applyOps_historyWF ops (initialEngine t) (initialEngine_historyWF t)
    refine ⟨h1, fun hne => ?_⟩
    have hlen : (applyOps (initialEngine t) ops).history.length ≠ 0 := by
      simpa using hne
    rcases lt_or_ge (applyOps (initialEngine t) ops).historyIndex 0 with hneg | hpos
    · have hm1 : (applyOps (initialEngine t) ops).historyIndex = -1 := by omega
      have := h4 hm1
      omega
    · exact ⟨hpos, h3⟩
  · intro s hm hlen hidx
    have htake : s.history.take (s.historyIndex + 1).toNat = s.history := by
      apply List.take_of_length_le
      omega
    unfold saveState
    dsimp only
    rw [htake]
    rw [if_pos (by simp [hlen, hm])]
    constructor
    · simp [List.drop_append_eq_append_drop, hlen]
    · dsimp only
      omega

/-- A full-history state for the C6 witness: 30 snapshots, position at the
top. -/
def fullHistoryEngineW : Engine :=
  { initialEngine 0 with
      history := List.replicate 30 (initialEngine 0).canvasState
      historyIndex := 29 }

/-- Witness for C6: at the full-history state, one more checkpoint evicts
the head and keeps the position at 29; the reachable-state part is
instanced at the empty operation list. -/
theorem history_bounded_and_index_valid_witness :
    ((applyOps (initialEngine 0) []).history.length ≤ 30 ∧
      (fullHistoryEngineW.maxHistorySize = 30 ∧
        fullHistoryEngineW.history.length = 30 ∧
        fullHistoryEngineW.historyIndex = 29)) ∧
    ((saveState fullHistoryEngineW).history
        = fullHistoryEngineW.history.drop 1
          ++ [cloneCanvasState fullHistoryEngineW.canvasState] ∧
      (saveState fullHistoryEngineW).historyIndex = 29) :=
  ⟨⟨(history_bounded_and_index_valid [] 0).1.1, rfl, by simp [fullHistoryEngineW], rfl⟩,
    (history_bounded_and_index_valid [] 0).2 fullHistoryEngineW rfl
      (by simp [fullHistoryEngineW]) rfl⟩

/-! Model of the drawing screen `app/(tabs)/draw.tsx`, which carries the
1.5-unit near-duplicate filter in its touch-move handler. -/

/-- `Point` of draw.tsx. -/
structure DPoint where
  x : ℚ
  y : ℚ
  pressure : ℚ
  timestamp : ℤ
deriving DecidableEq, Inhabited

/-- One SVG path command as assembled by draw.tsx's `createSVGPath` (the
source builds the equivalent `M`/`L`/`Q` string). -/
inductive SvgCmd where
  | M (x y : ℚ)
  | L (x y : ℚ)
  | Q (cx cy x y : ℚ)
deriving DecidableEq

/-- `Stroke` of draw.tsx. -/
structure DStroke where
  id : String
  points : List DPoint
  pathData : List SvgCmd
  color : String
  size : ℚ
  opacity : ℚ
  tool : Tool
  completed : Bool
deriving DecidableEq

/-- `BrushPreset` of draw.tsx. -/
structure BrushPreset where
  id : String
  name : String
  icon : String
  baseSize : ℚ
  opacity : ℚ
  smoothing : ℚ
deriving DecidableEq

/-- The four presets of draw.tsx. -/
def brushPresets : List BrushPreset :=
  [{ id := "smooth", name := "Smooth", icon := "P1", baseSize := 1, opacity := 1,
     smoothing := 0.8 },
   { id := "pencil", name := "Pencil", icon := "P2", baseSize := 0.8, opacity := 0.9,
     smoothing := 0.3 },
   { id := "marker", name := "Marker", icon := "P3", baseSize := 1.2, opacity := 1,
     smoothing := 0.9 },
   { id := "brush", name := "Brush", icon := "P4", baseSize := 1.1, opacity := 0.95,
     smoothing := 0.7 }]

/-- The component state of draw.tsx used by the touch handlers. -/
structure DrawScreenState where
  strokes : List DStroke
  currentStroke : Option DStroke
  selectedTool : Tool
  selectedColor : String
  brushSize : ℚ
  brushOpacity : ℚ
  activeBrushId : String
  isDrawing : Bool
  history : List (List DStroke)
  historyStep : ℕ
  strokeIdCounter : ℕ
  lastPoint : Option DPoint
  smoothingBuffer : List DPoint
deriving DecidableEq

/-- JavaScript `v || d` on an optional number: `undefined` and `0` both
fall back to the default. -/
def jsOr (v : Option ℚ) (d : ℚ) : ℚ :=
  match v with
  | none => d
  | some x => if x = 0 then d else x

/-- `brushPresets.find(b => b.id === activeBrushId)`. -/
def activeBrushOf (s : DrawScreenState) : Option BrushPreset :=
  brushPresets.find? (fun b => b.id = s.activeBrushId)

/-- `smoothPoint` of draw.tsx: blend factor `1 - smoothing * 0.5` against
the last buffer entry. -/
def dSmoothPoint (s : DrawScreenState) (point : DPoint) (buffer : List DPoint) : DPoint :=
  let smoothing := jsOr ((activeBrushOf s).map BrushPreset.smoothing) 0.5
  match buffer.getLast? with
  | none => point
  | some last =>
    { x := last.x + (point.x - last.x) * (1 - smoothing * 0.5)
      y := last.y + (point.y - last.y) * (1 - smoothing * 0.5)
      pressure := point.pressure
      timestamp := point.timestamp }

/-- `calculateStrokeWidth` of draw.tsx. -/
def dCalculateStrokeWidth (s : DrawScreenState) (pressure : ℚ) : ℚ :=
  let baseSize := s.brushSize * jsOr ((activeBrushOf s).map BrushPreset.baseSize) 1
  let minSize := baseSize * 0.3
  let maxSize := baseSize * 1.2
  minSize + (maxSize - minSize) * pressure

/-- `createSVGPath` of draw.tsx. -/
def dCreateSVGPath (s : DrawScreenState) (points : List DPoint) : List SvgCmd :=
  match points with
  | [] => []
  | [_] => []
  | [p0, p1] => [SvgCmd.M p0.x p0.y, SvgCmd.L p1.x p1.y]
  | p0 :: _ :: _ :: _ =>
    let smoothing := jsOr ((activeBrushOf s).map BrushPreset.smoothing) 0.5
    let n := points.length
    SvgCmd.M p0.x p0.y ::
      ((List.range n).filterMap fun i =>
        if 1 ≤ i ∧ i + 1 < n then
          let current := points.getD i default
          let next := points.getD (i + 1) default
          some (SvgCmd.Q current.x current.y
            (current.x + (next.x - current.x) * smoothing)
            (current.y + (next.y - current.y) * smoothing))
        else none) ++
      [SvgCmd.L (points.getLast?.getD default).x (points.getLast?.getD default).y]

/-- The accepting branch of `handleTouchMove`: smooth, push into the
(8-capped) buffer, extend the stroke, refresh width and path, remember the
smoothed point as the last accepted point. -/
def dAcceptMove (raw : DPoint) (s : DrawScreenState) (cs : DStroke) : DrawScreenState :=
  let smoothedPoint := dSmoothPoint s raw s.smoothingBuffer
  let buf := s.smoothingBuffer ++ [smoothedPoint]
  let buf := if buf.length > 8 then buf.drop 1 else buf
  let updated : DStroke :=
    { cs with
        points := cs.points ++ [smoothedPoint]
        size := dCalculateStrokeWidth s smoothedPoint.pressure }
  let updated := { updated with pathData := dCreateSVGPath s (cs.points ++ [smoothedPoint]) }
  { s with currentStroke := some updated
           lastPoint := some smoothedPoint
           smoothingBuffer := buf }

/-- `handleTouchMove` of draw.tsx.  The source guard is
`Math.sqrt(dx^2 + dy^2) < 1.5`; both sides being nonnegative this is
equivalent to `dx^2 + dy^2 < 2.25 = 9/4`, which is how it is embedded. -/
def handleTouchMove (raw : DPoint) (s : DrawScreenState) : DrawScreenState :=
  if s.isDrawing = false then s else
  match s.currentStroke with
  | none => s
  | some cs =>
    match s.lastPoint with
    | some lp =>
      if (raw.x - lp.x) ^ 2 + (raw.y - lp.y) ^ 2 < 9/4 then s
      else dAcceptMove raw s cs
    | none => dAcceptMove raw s cs

/-- The seed point of the C9 counterexample trace. -/
def c9Seed : Point := { x := 0, y := 0, pressure := 1, timestamp := 0 }

/-- A near-duplicate input: 1 unit away from the seed, below the 1.5-unit
threshold. -/
def c9Near : Point := { x := 1, y := 0, pressure := 1, timestamp := 5 }

/-- A fresh engine with one stroke just started at the seed point. -/
def c9Engine : Engine := applyOps (initialEngine 0) [Op.opStartStroke 0 c9Seed]

/-- Counterexample for C9 as stated: `DrawingEngine.addStrokePoint` applies
no distance threshold — a point 1 unit from the current stroke's last
stored point (below 1.5) still extends the point sequence. -/
theorem addStrokePoint_no_distance_filter_counterexample :
    ((c9Near.x - c9Seed.x) ^ 2 + (c9Near.y - c9Seed.y) ^ 2 < 9/4) ∧
    (c9Engine.currentStroke).map Stroke.points = some [c9Seed] ∧
    ((addStrokePoint c9Near c9Engine).currentStroke).map
        (fun st => st.points.length) = some 2 :=
  ⟨by norm_num [c9Near, c9Seed], rfl, rfl⟩

/-- C9 (amended): the near-duplicate rejection lives in the drawing
screen's touch-move handler, not in the engine: while drawing, a raw point
within 1.5 units of the last accepted point leaves the screen state (and
hence the stroke's point sequence) completely unchanged, whereas the
engine's `addStrokePoint` unconditionally extends the current stroke by one
(smoothed) point. -/
theorem near_duplicate_rejected_in_touch_handler
    (s : DrawScreenState) (raw lp : DPoint)
    (hD : s.isDrawing = true) (hcs : s.currentStroke.isSome = true)
    (hlp : s.lastPoint = some lp)
    (hnear : (raw.x - lp.x) ^ 2 + (raw.y - lp.y) ^ 2 < 9/4) :
    handleTouchMove raw s = s ∧
    (∀ (e : Engine) (cs : Stroke) (q : Point), e.isDrawing = true →
      e.currentStroke = some cs →
      ((addStrokePoint q e).currentStroke).map (fun st => st.points.length)
        = some (cs.points.length + 1)) := by
  constructor
  · unfold handleTouchMove
    rw [hD]
    simp only [Bool.true_eq_false, if_false]
    obtain ⟨cs, hcs'⟩ := Option.isSome_iff_exists.mp hcs
    rw [hcs', hlp]
    dsimp only
    rw [if_pos hnear]
  · intro e cs q hD' hcs'
    rw [addStrokePoint_drawing e cs q hD' hcs']
    simp [emit, appendedStroke]

/-- The last accepted point in the C9 witness state. -/
def dPointW : DPoint := { x := 0, y := 0, pressure := 1, timestamp := 0 }

/-- A drawing-screen state mid-stroke for the C9 witness. -/
def drawScreenW : DrawScreenState :=
  { strokes := []
    currentStroke := some
      { id := "stroke_1", points := [dPointW], pathData := [], color := "#000000",
        size := 8, opacity := 1, tool := Tool.brush, completed := false }
    selectedTool := Tool.brush
    selectedColor := "#000000"
    brushSize := 8
    brushOpacity := 1
    activeBrushId := "smooth"
    isDrawing := true
    history := [[]]
    historyStep := 0
    strokeIdCounter := 1
    lastPoint := some dPointW
    smoothingBuffer := [dPointW] }

/-- Witness for C9's amended theorem: an exact duplicate of the last
accepted point is rejected by the touch handler. -/
theorem near_duplicate_rejected_in_touch_handler_witness :
    (drawScreenW.isDrawing = true ∧ drawScreenW.currentStroke.isSome = true ∧
      drawScreenW.lastPoint = some dPointW ∧
      (dPointW.x - dPointW.x) ^ 2 + (dPointW.y - dPointW.y) ^ 2 < 9/4) ∧
    handleTouchMove dPointW drawScreenW = drawScreenW :=
  ⟨⟨rfl, rfl, rfl, by simp⟩,
    (near_duplicate_rejected_in_touch_handler drawScreenW dPointW dPointW
      rfl rfl rfl (by simp)).1⟩

/-! Heap model for snapshot independence (C8).  JavaScript objects are heap
references: live mutations write through the references held by the live
CanvasState, while `saveState`'s `JSON.parse(JSON.stringify(...))` round
trip allocates a fresh object tree for the snapshot, and `restoreState`
clones again on the way back.  To make that aliasing discipline
expressible, the stroke point arrays are placed in an explicit store
addressed by numeric references; layers and strokes mirror the engine
structures restricted to the data this claim is about.  History truncation
and eviction only drop whole snapshots and never write into a retained
one, so the snapshot stack is modelled append-only. -/

/-- A stroke as a reference to its point array in the store. -/
structure StrokeRef where
  ptsRef : ℕ
deriving DecidableEq

/-- A layer holding stroke references and its mutable `locked` flag. -/
structure LayerRef where
  lockedR : Bool
  strokesR : List StrokeRef
deriving DecidableEq

/-- A canvas: the layer list. -/
structure CanvasRef where
  layersR : List LayerRef
deriving DecidableEq

/-- The heap-level engine: live canvas, active-layer index, current stroke
reference, drawing flag, snapshot stack, active smoothing factor, and the
store of point arrays. -/
structure HEngine where
  canvasR : CanvasRef
  activeIx : ℕ
  currentR : Option StrokeRef
  drawingH : Bool
  historyR : List CanvasRef
  smoothingH : ℚ
  store : List (List Point)
deriving DecidableEq

/-- Dereference a point array (out-of-range reads never happen under the
well-formedness invariant). -/
def readArr (st : List (List Point)) (r : ℕ) : List Point :=
  st.getD r []

/-- Overwrite a point array in place. -/
def writeArr (st : List (List Point)) (r : ℕ) (pts : List Point) : List (List Point) :=
  st.set r pts

/-- Clone a stroke list: each stroke's point array is copied into a fresh
store cell (the JSON round trip shares nothing). -/
def cloneStrokesH : List (List Point) → List StrokeRef → List (List Point) × List StrokeRef
  | st, [] => (st, [])
  | st, sr :: rest =>
    let r := st.length
    let st1 := st ++ [readArr st sr.ptsRef]
    let p := cloneStrokesH st1 rest
    (p.1, { ptsRef := r } :: p.2)

/-- Clone a layer list. -/
def cloneLayersH : List (List Point) → List LayerRef → List (List Point) × List LayerRef
  | st, [] => (st, [])
  | st, l :: rest =>
    let p1 := cloneStrokesH st l.strokesR
    let p2 := cloneLayersH p1.1 rest
    (p2.1, { lockedR := l.lockedR, strokesR := p1.2 } :: p2.2)

/-- `saveState` at the heap level: deep-clone the live canvas into fresh
store cells and push the cloned tree onto the snapshot stack. -/
def saveStateH (e : HEngine) : HEngine :=
  let p := cloneLayersH e.store e.canvasR.layersR
  { e with store := p.1, historyR := e.historyR ++ [{ layersR := p.2 }] }

/-- The layer the active index points at. -/
def layerAt (e : HEngine) : Option LayerRef :=
  e.canvasR.layersR.get? e.activeIx

/-- Update the layer at an index in place. -/
def setLayerAt : ℕ → (LayerRef → LayerRef) → List LayerRef → List LayerRef
  | _, _, [] => []
  | 0, f, l :: rest => f l :: rest
  | n + 1, f, l :: rest => l :: setLayerAt n f rest

/-- `startStroke` at the heap level: guard on the active layer's lock,
allocate a fresh point array seeded with the raw point as the current
stroke, and checkpoint. -/
def hStartStrokeF (p : Point) (e : HEngine) : HEngine :=
  match layerAt e with
  | none => e
  | some l =>
    if l.lockedR then e
    else
      let r := e.store.length
      let e1 := { e with store := e.store ++ [[p]], currentR := some { ptsRef := r },
                         drawingH := true }
      saveStateH e1

/-- `addStrokePoint` at the heap level: write the smoothed point through
the live current-stroke reference. -/
def hAddPointF (p : Point) (e : HEngine) : HEngine :=
  if e.drawingH = false then e else
  match e.currentR with
  | none => e
  | some sr =>
    let pts := readArr e.store sr.ptsRef
    let sp :=
      match pts.getLast? with
      | none => p
      | some lst => blendSpec e.smoothingH lst p
    { e with store := writeArr e.store sr.ptsRef (pts ++ [sp]) }

/-- `endStroke` at the heap level: push the current stroke reference onto
the active layer. -/
def hEndStrokeF (e : HEngine) : HEngine :=
  if e.drawingH = false then e else
  match e.currentR with
  | none => e
  | some sr =>
    let e1 :=
      match layerAt e with
      | some _ =>
        { e with canvasR :=
            { layersR := setLayerAt e.activeIx
                (fun l => { l with strokesR := l.strokesR ++ [sr] }) e.canvasR.layersR } }
      | none => e
    { e1 with currentR := none, drawingH := false }

/-- `clearActiveLayer` at the heap level: checkpoint, then drop the active
layer's stroke references. -/
def hClearActiveLayerF (e : HEngine) : HEngine :=
  match layerAt e with
  | none => e
  | some _ =>
    let e1 := saveStateH e
    { e1 with canvasR :=
        { layersR := setLayerAt e1.activeIx
            (fun l => { l with strokesR := [] }) e1.canvasR.layersR } }

/-- `clearCanvas` at the heap level: checkpoint, then drop every layer's
stroke references. -/
def hClearCanvasF (e : HEngine) : HEngine :=
  let e1 := saveStateH e
  { e1 with canvasR :=
      { layersR := e1.canvasR.layersR.map (fun l => { l with strokesR := [] }) } }

/-- `createLayer` at the heap level. -/
def hCreateLayerF (e : HEngine) : HEngine :=
  { e with canvasR :=
      { layersR := e.canvasR.layersR ++ [{ lockedR := false, strokesR := [] }] } }

/-- `setActiveLayer` at the heap level. -/
def hSetActiveF (i : ℕ) (e : HEngine) : HEngine :=
  { e with activeIx := i }

/-- Lock toggling at the heap level (a direct layer-field write). -/
def hSetLockedF (i : ℕ) (b : Bool) (e : HEngine) : HEngine :=
  { e with canvasR :=
      { layersR := setLayerAt i (fun l => { l with lockedR := b }) e.canvasR.layersR } }

/-- The heap-level operations quantified over in C8: the checkpoint-taking
stroke lifecycle plus every live-state mutation the claim lists (adding
points, committing strokes, clearing layers, changing layer fields). -/
inductive HOp where
  | hStartStroke (p : Point)
  | hAddPoint (p : Point)
  | hEndStroke
  | hClearActiveLayer
  | hClearCanvas
  | hCreateLayer
  | hSetActive (i : ℕ)
  | hSetLocked (i : ℕ) (b : Bool)
deriving DecidableEq

/-- Interpret one heap-level operation. -/
def applyHOp (e : HEngine) : HOp → HEngine
  | HOp.hStartStroke p => hStartStrokeF p e
  | HOp.hAddPoint p => hAddPointF p e
  | HOp.hEndStroke => hEndStrokeF e
  | HOp.hClearActiveLayer => hClearActiveLayerF e
  | HOp.hClearCanvas => hClearCanvasF e
  | HOp.hCreateLayer => hCreateLayerF e
  | HOp.hSetActive i => hSetActiveF i e
  | HOp.hSetLocked i b => hSetLockedF i b e

/-- Interpret a heap-level operation sequence. -/
def applyHOps (e : HEngine) (ops : List HOp) : HEngine :=
  ops.foldl applyHOp e

/-- The fresh heap-level engine: one empty unlocked layer, empty store. -/
def initialH : HEngine :=
  { canvasR := { layersR := [{ lockedR := false, strokesR := [] }] }
    activeIx := 0
    currentR := none
    drawingH := false
    historyR := []
    smoothingH := 0.8
    store := [] }

/-- Read a snapshot's stroke point data back through the store. -/
def readSnapshot (st : List (List Point)) (c : CanvasRef) : List (List (List Point)) :=
  c.layersR.map (fun l => l.strokesR.map (fun sr => readArr st sr.ptsRef))

/-- All point-array references reachable from a canvas tree. -/
def refsOfCanvas (c : CanvasRef) : List ℕ :=
  c.layersR.flatMap (fun l => l.strokesR.map StrokeRef.ptsRef)

/-- All references the live state can write through: the live canvas plus
the current stroke. -/
def liveRefs (e : HEngine) : List ℕ :=
  refsOfCanvas e.canvasR ++
    (match e.currentR with
     | some sr => [sr.ptsRef]
     | none => [])

/-- Heap well-formedness: live references are in range, and every
snapshot's references are in range and disjoint from the live ones (the
deep copy shares nothing with the live state). -/
def WfH (e : HEngine) : Prop :=
  (∀ r ∈ liveRefs e, r < e.store.length) ∧
  (∀ c ∈ e.historyR, ∀ r ∈ refsOfCanvas c, r < e.store.length ∧ r ∉ liveRefs e)

/-- Extending the store does not change reads of existing cells. -/
theorem readArr_append (st ext : List (List Point)) (r : ℕ) (h : r < st.length) :
    readArr (st ++ ext) r = readArr st r := by
  unfold readArr
  rw [List.getD_eq_getElem?_getD, List.getD_eq_getElem?_getD, List.getElem?_append_left h]

/-- Writing one cell does not change reads of any other cell. -/
theorem readArr_set_ne (st : List (List Point)) (r0 r : ℕ) (v : List Point)
    (h : r ≠ r0) :
    readArr (writeArr st r0 v) r = readArr st r := by
  unfold readArr writeArr
  rw [List.getD_eq_getElem?_getD, List.getD_eq_getElem?_getD,
    List.getElem?_set_ne (fun he => h he.symm)]

/-- Snapshot read-back only depends on the cells the snapshot references. -/
theorem readSnapshot_congr (st st' : List (List Point)) (c : CanvasRef)
    (h : ∀ r ∈ refsOfCanvas c, readArr st' r = readArr st r) :
    readSnapshot st' c = readSnapshot st c := by
  unfold readSnapshot
  apply List.map_congr_left
  intro l hl
  apply List.map_congr_left
  intro sr hsr
  apply h
  unfold refsOfCanvas
  exact List.mem_flatMap.mpr ⟨l, hl, List.mem_map.mpr ⟨sr, hsr, rfl⟩⟩

/-- Read-back is stable under store extension when the snapshot's
references are in range. -/
theorem readSnapshot_append (st ext : List (List Point)) (c : CanvasRef)
    (hbound : ∀ r ∈ refsOfCanvas c, r < st.length) :
    readSnapshot (st ++ ext) c = readSnapshot st c :=
  readSnapshot_congr st (st ++ ext) c (fun r hr => readArr_append st ext r (hbound r hr))

/-- `cloneStrokesH` only appends to the store, and every reference it hands
out is fresh (at or beyond the old store end, within the new one). -/
theorem cloneStrokesH_spec (srs : List StrokeRef) :
    ∀ st : List (List Point),
      (∃ ext, (cloneStrokesH st srs).1 = st ++ ext) ∧
      ∀ sr' ∈ (cloneStrokesH st srs).2,
        st.length ≤ sr'.ptsRef ∧ sr'.ptsRef < (cloneStrokesH st srs).1.length := by
  induction srs with
  | nil =>
    intro st
    exact ⟨⟨[], by simp [cloneStrokesH]⟩, by simp [cloneStrokesH]⟩
  | cons sr rest ih =>
    intro st
    obtain ⟨⟨ext, hx⟩, hfresh⟩ := ih (st ++ [readArr st sr.ptsRef])
    unfold cloneStrokesH
    dsimp only
    constructor
    · refine ⟨[readArr st sr.ptsRef] ++ ext, ?_⟩
      rw [hx]
      simp
    · intro sr' hsr'
      rcases List.mem_cons.mp hsr' with heq | hmem
      · subst heq
        refine ⟨le_refl _, ?_⟩
        rw [hx]
        simp only [List.length_append, List.length_singleton]
        omega
      · have hb := hfresh sr' hmem
        simp only [List.length_append, List.length_singleton] at hb
        exact ⟨by omega, hb.2⟩

/-- `cloneLayersH` only appends to the store, and every reference in the
cloned tree is fresh. -/
theorem cloneLayersH_spec (ls : List LayerRef) :
    ∀ st : List (List Point),
      (∃ ext, (cloneLayersH st ls).1 = st ++ ext) ∧
      ∀ l' ∈ (cloneLayersH st ls).2, ∀ sr' ∈ l'.strokesR,
        st.length ≤ sr'.ptsRef ∧ sr'.ptsRef < (cloneLayersH st ls).1.length := by
  induction ls with
  | nil =>
    intro st
    exact ⟨⟨[], by simp [cloneLayersH]⟩, by simp [cloneLayersH]⟩
  | cons l rest ih =>
    intro st
    obtain ⟨⟨ext1, hx1⟩, hfresh1⟩ := cloneStrokesH_spec l.strokesR st
    obtain ⟨⟨ext2, hx2⟩, hfresh2⟩ := ih (cloneStrokesH st l.strokesR).1
    unfold cloneLayersH
    dsimp only
    constructor
    · refine ⟨ext1 ++ ext2, ?_⟩
      rw [hx2, hx1]
      simp
    · intro l' hl' sr' hsr'
      rcases List.mem_cons.mp hl' with heq | hmem
      · subst heq
        have hb := hfresh1 sr' hsr'
        refine ⟨hb.1, ?_⟩
        rw [hx2]
        simp only [List.length_append]
        omega
      · have hb := hfresh2 l' hmem sr' hsr'
        have hb1 := hb.1
        have hlen : st.length ≤ (cloneStrokesH st l.strokesR).1.length := by
          rw [hx1]
          simp only [List.length_append]
          omega
        exact ⟨by omega, hb.2⟩

/-- Membership in the canvas references after an in-place layer update
comes either from the old references or from the updated layer's list. -/
theorem mem_refs_setLayerAt (f : LayerRef → LayerRef) :
    ∀ (i : ℕ) (ls : List LayerRef) (r : ℕ),
      r ∈ (setLayerAt i f ls).flatMap (fun l => l.strokesR.map StrokeRef.ptsRef) →
      r ∈ ls.flatMap (fun l => l.strokesR.map StrokeRef.ptsRef) ∨
        ∃ l ∈ ls, r ∈ (f l).strokesR.map StrokeRef.ptsRef := by
  intro i ls
  induction ls generalizing i with
  | nil =>
    intro r hr
    cases i <;> simp [setLayerAt] at hr
  | cons a rest ih =>
    intro r hr
    cases i with
    | zero =>
      rw [setLayerAt, List.flatMap_cons] at hr
      rcases List.mem_append.mp hr with h | h
      · exact Or.inr ⟨a, List.mem_cons_self a rest, h⟩
      · exact Or.inl (by rw [List.flatMap_cons]; exact List.mem_append_right _ h)
    | succ n =>
      rw [setLayerAt, List.flatMap_cons] at hr
      rcases List.mem_append.mp hr with h | h
      · exact Or.inl (by rw [List.flatMap_cons]; exact List.mem_append_left _ h)
      · rcases ih n r h with h' | ⟨l, hl, hrl⟩
        · exact Or.inl (by rw [List.flatMap_cons]; exact List.mem_append_right _ h')
        · exact Or.inr ⟨l, List.mem_cons_of_mem a hl, hrl⟩

/-- Transfer of well-formedness along an operation that keeps the store and
snapshot stack and only shrinks (or permutes) the live reference set. -/
theorem WfH_of_liveRefs_subset (e e' : HEngine)
    (hs : e'.store = e.store) (hh : e'.historyR = e.historyR)
    (hsub : ∀ r, r ∈ liveRefs e' → r ∈ liveRefs e) (h : WfH e) : WfH e' := by
  obtain ⟨h1, h2⟩ := h
  constructor
  · intro r hr
    rw [hs]
    exact h1 r (hsub r hr)
  · intro c hc r hr
    rw [hh] at hc
    have hb := h2 c hc r hr
    exact ⟨by rw [hs]; exact hb.1, fun hl => hb.2 (hsub r hl)⟩

/-- `saveStateH` preserves well-formedness: the snapshot it pushes uses
only fresh cells, disjoint from everything live. -/
theorem saveStateH_WfH (e : HEngine) (h : WfH e) : WfH (saveStateH e) := by
  obtain ⟨h1, h2⟩ := h
  obtain ⟨⟨ext, hx⟩, hfresh⟩ := cloneLayersH_spec e.canvasR.layersR e.store
  unfold saveStateH
  dsimp only
  constructor
  · intro r hr
    have hb := h1 r hr
    rw [hx]
    simp only [List.length_append]
    omega
  · intro c hc r hr
    rcases List.mem_append.mp hc with hold | hnew
    · have hb := h2 c hold r hr
      refine ⟨?_, hb.2⟩
      rw [hx]
      simp only [List.length_append]
      omega
    · have hceq : c = { layersR := (cloneLayersH e.store e.canvasR.layersR).2 } := by
        simpa using hnew
      subst hceq
      unfold refsOfCanvas at hr
      obtain ⟨l', hl', hr'⟩ := List.mem_flatMap.mp hr
      obtain ⟨sr', hsr', hreq⟩ := List.mem_map.mp hr'
      have hb := hfresh l' hl' sr' hsr'
      subst hreq
      refine ⟨hb.2, fun hl => ?_⟩
      have := h1 _ hl
      omega

/-- `hEndStrokeF` never touches the store. -/
theorem hEndStrokeF_store (e : HEngine) : (hEndStrokeF e).store = e.store := by
  unfold hEndStrokeF
  dsimp only
  split
  · rfl
  · split
    · rfl
    · split <;> rfl

/-- `hStartStrokeF` only appends to the store. -/
theorem hStartStrokeF_store (p : Point) (e : HEngine) :
    ∃ ext, (hStartStrokeF p e).store = e.store ++ ext := by
  unfold hStartStrokeF
  dsimp only
  cases hA : layerAt e with
  | none => exact ⟨[], by simp⟩
  | some l =>
    simp only [hA]
    by_cases hl : l.lockedR
    · simp only [hl, if_true]
      exact ⟨[], by simp⟩
    · simp only [hl, Bool.false_eq_true, if_false]
      unfold saveStateH
      dsimp only
      obtain ⟨ext, hx⟩ := (cloneLayersH_spec e.canvasR.layersR (e.store ++ [[p]])).1
      refine ⟨[[p]] ++ ext, ?_⟩
      rw [hx]
      simp

/-- `hClearActiveLayerF` only appends to the store. -/
theorem hClearActiveLayerF_store (e : HEngine) :
    ∃ ext, (hClearActiveLayerF e).store = e.store ++ ext := by
  unfold hClearActiveLayerF
  dsimp only
  cases hA : layerAt e with
  | none => exact ⟨[], by simp⟩
  | some l =>
    simp only [hA]
    unfold saveStateH
    dsimp only
    obtain ⟨ext, hx⟩ := (cloneLayersH_spec e.canvasR.layersR e.store).1
    exact ⟨ext, hx⟩

/-- `hClearCanvasF` only appends to the store. -/
theorem hClearCanvasF_store (e : HEngine) :
    ∃ ext, (hClearCanvasF e).store = e.store ++ ext := by
  unfold hClearCanvasF saveStateH
  dsimp only
  obtain ⟨ext, hx⟩ := (cloneLayersH_spec e.canvasR.layersR e.store).1
  exact ⟨ext, hx⟩

/-- Every heap-level operation preserves well-formedness. -/
theorem applyHOp_WfH (e : HEngine) (m : HOp) (h : WfH e) : WfH (applyHOp e m) := by
  cases m with
  | hStartStroke p =>
    show WfH (hStartStrokeF p e)
    unfold hStartStrokeF
    dsimp only
    cases hA : layerAt e with
    | none => simp only [hA]; exact h
    | some l =>
      simp only [hA]
      by_cases hl : l.lockedR
      · simp only [hl, if_true]; exact h
      · simp only [hl, Bool.false_eq_true, if_false]
        apply saveStateH_WfH
        obtain ⟨h1, h2⟩ := h
        constructor
        · intro r hr
          unfold liveRefs at hr
          dsimp only at hr
          rcases List.mem_append.mp hr with hc | hcur
          · have := h1 r (List.mem_append_left _ hc)
            simp only [List.length_append, List.length_singleton]
            omega
          · have : r = e.store.length := by simpa using hcur
            subst this
            simp only [List.length_append, List.length_singleton]
            omega
        · intro c hc r hr
          have hb := h2 c hc r hr
          have hb1 := hb.1
          constructor
          · simp only [List.length_append, List.length_singleton]
            omega
          · intro hl'
            unfold liveRefs at hl'
            dsimp only at hl'
            rcases List.mem_append.mp hl' with hc' | hcur
            · exact hb.2 (List.mem_append_left _ hc')
            · have : r = e.store.length := by simpa using hcur
              omega
  | hAddPoint p =>
    show WfH (hAddPointF p e)
    unfold hAddPointF
    dsimp only
    split
    · exact h
    · cases hcr : e.currentR with
      | none => simp only [hcr]; exact h
      | some sr =>
        simp only [hcr]
        obtain ⟨h1, h2⟩ := h
        constructor
        · intro r hr
          have hr' : r ∈ liveRefs e := by
            unfold liveRefs
            rw [hcr]
            unfold liveRefs at hr
            dsimp only at hr ⊢
            exact hr
          have := h1 r hr'
          simpa [writeArr] using this
        · intro c hc r hrc
          have hb := h2 c hc r hrc
          refine ⟨by simpa [writeArr] using hb.1, fun hl' => hb.2 ?_⟩
          unfold liveRefs
          rw [hcr]
          unfold liveRefs at hl'
          dsimp only at hl' ⊢
          exact hl'
  | hEndStroke =>
    show WfH (hEndStrokeF e)
    unfold hEndStrokeF
    dsimp only
    split
    · exact h
    · cases hcr : e.currentR with
      | none => simp only [hcr]; exact h
      | some sr =>
        simp only [hcr]
        cases hA : layerAt e with
        | some l =>
          simp only [hA]
          refine WfH_of_liveRefs_subset e _ ?_ ?_ ?_ h
          · rfl
          · rfl
          · intro r hr
            unfold liveRefs at hr
            dsimp only at hr
            rw [List.append_nil] at hr
            rcases mem_refs_setLayerAt _ e.activeIx e.canvasR.layersR r hr with
              hold | ⟨l', hl', hrl⟩
            · exact List.mem_append_left _ hold
            · dsimp only at hrl
              rw [List.map_append] at hrl
              rcases List.mem_append.mp hrl with hin | hnew
              · refine List.mem_append_left _ ?_
                exact List.mem_flatMap.mpr ⟨l', hl', hin⟩
              · have : r = sr.ptsRef := by simpa using hnew
                subst this
                unfold liveRefs
                rw [hcr]
                exact List.mem_append_right _ (by simp)
        | none =>
          simp only [hA]
          refine WfH_of_liveRefs_subset e _ ?_ ?_ ?_ h
          · rfl
          · rfl
          · intro r hr
            unfold liveRefs at hr
            dsimp only at hr
            rw [List.append_nil] at hr
            exact List.mem_append_left _ hr
  | hClearActiveLayer =>
    show WfH (hClearActiveLayerF e)
    unfold hClearActiveLayerF
    dsimp only
    cases hA : layerAt e with
    | none => simp only [hA]; exact h
    | some l =>
      simp only [hA]
      refine WfH_of_liveRefs_subset (saveStateH e) _ ?_ ?_ ?_ (saveStateH_WfH e h)
      · rfl
      · rfl
      · intro r hr
        unfold liveRefs at hr ⊢
        dsimp only at hr ⊢
        rcases List.mem_append.mp hr with hc | hcur
        · rcases mem_refs_setLayerAt _ _ _ r hc with hold | ⟨l', hl', hrl⟩
          · exact List.mem_append_left _ hold
          · simp at hrl
        · exact List.mem_append_right _ hcur
  | hClearCanvas =>
    show WfH (hClearCanvasF e)
    unfold hClearCanvasF
    dsimp only
    refine WfH_of_liveRefs_subset (saveStateH e) _ ?_ ?_ ?_ (saveStateH_WfH e h)
    · rfl
    · rfl
    · intro r hr
      unfold liveRefs at hr ⊢
      dsimp only at hr ⊢
      rcases List.mem_append.mp hr with hc | hcur
      · obtain ⟨l', hl', hrl⟩ := List.mem_flatMap.mp hc
        obtain ⟨x, hx, hxeq⟩ := List.mem_map.mp hl'
        rw [← hxeq] at hrl
        simp at hrl
      · exact List.mem_append_right _ hcur
  | hCreateLayer =>
    show WfH (hCreateLayerF e)
    refine WfH_of_liveRefs_subset e _ ?_ ?_ ?_ h
    · rfl
    · rfl
    · intro r hr
      unfold liveRefs hCreateLayerF at hr
      unfold liveRefs
      dsimp only at hr ⊢
      rcases List.mem_append.mp hr with hc | hcur
      · unfold refsOfCanvas at hc
        dsimp only at hc
        rw [List.flatMap_append] at hc
        rcases List.mem_append.mp hc with hold | hnew
        · exact List.mem_append_left _ hold
        · simp at hnew
      · exact List.mem_append_right _ hcur
  | hSetActive i =>
    show WfH (hSetActiveF i e)
    refine WfH_of_liveRefs_subset e _ ?_ ?_ ?_ h
    · rfl
    · rfl
    · intro r hr
      exact hr
  | hSetLocked i b =>
    show WfH (hSetLockedF i b e)
    refine WfH_of_liveRefs_subset e _ ?_ ?_ ?_ h
    · rfl
    · rfl
    · intro r hr
      unfold liveRefs hSetLockedF at hr
      unfold liveRefs
      dsimp only at hr ⊢
      rcases List.mem_append.mp hr with hc | hcur
      · rcases mem_refs_setLayerAt _ i e.canvasR.layersR r hc with hold | ⟨l', hl', hrl⟩
        · exact List.mem_append_left _ hold
        · refine List.mem_append_left _ ?_
          exact List.mem_flatMap.mpr ⟨l', hl', hrl⟩
      · exact List.mem_append_right _ hcur

/-- Well-formedness holds along any heap-level operation sequence. -/
theorem applyHOps_WfH (ops : List HOp) (e : HEngine) (h : WfH e) :
    WfH (applyHOps e ops) := by
  induction ops generalizing e with
  | nil => exact h
  | cons m rest ih => exact ih (applyHOp e m) (applyHOp_WfH e m h)

/-- The fresh heap-level engine is well-formed. -/
theorem initialH_WfH : WfH initialH := by
  constructor
  · intro r hr
    simp [liveRefs, refsOfCanvas, initialH] at hr
  · intro c hc
    simp [initialH] at hc

/-- C8: snapshots are value-level deep copies sharing no mutable cell with
the live state.  First part: every heap state reachable from a fresh engine
is well-formed (all snapshot references are disjoint from the live ones).
Second part: from any well-formed state, any further operation — adding
points, committing strokes, clearing layers, changing layer fields, or
taking another checkpoint — leaves the read-back of every stored snapshot's
stroke point data exactly as it was. -/
theorem snapshot_readback_independent :
    (∀ ops : List HOp, WfH (applyHOps initialH ops)) ∧
    (∀ (e : HEngine) (m : HOp) (c : CanvasRef), WfH e → c ∈ e.historyR →
      readSnapshot (applyHOp e m).store c = readSnapshot e.store c) := by
  constructor
  · intro ops
    exact applyHOps_WfH ops initialH initialH_WfH
  · intro e m c hWf hc
    obtain ⟨h1, h2⟩ := hWf
    have hbound : ∀ r ∈ refsOfCanvas c, r < e.store.length :=
      fun r hr => (h2 c hc r hr).1
    have hdisj : ∀ r ∈ refsOfCanvas c, r ∉ liveRefs e :=
      fun r hr => (h2 c hc r hr).2
    cases m with
    | hStartStroke p =>
      obtain ⟨ext, hx⟩ := hStartStrokeF_store p e
      show readSnapshot (hStartStrokeF p e).store c = readSnapshot e.store c
      rw [hx]
      exact readSnapshot_append _ _ _ hbound
    | hAddPoint p =>
      show readSnapshot (hAddPointF p e).store c = readSnapshot e.store c
      unfold hAddPointF
      dsimp only
      split
      · rfl
      · cases hcr : e.currentR with
        | none => simp only [hcr]
        | some sr =>
          simp only [hcr]
          apply readSnapshot_congr
          intro r hr
          apply readArr_set_ne
          intro heq
          apply hdisj r hr
          unfold liveRefs
          rw [hcr, heq]
          exact List.mem_append_right _ (by simp)
    | hEndStroke =>
      show readSnapshot (hEndStrokeF e).store c = readSnapshot e.store c
      rw [hEndStrokeF_store]
    | hClearActiveLayer =>
      obtain ⟨ext, hx⟩ := hClearActiveLayerF_store e
      show readSnapshot (hClearActiveLayerF e).store c = readSnapshot e.store c
      rw [hx]
      exact readSnapshot_append _ _ _ hbound
    | hClearCanvas =>
      obtain ⟨ext, hx⟩ := hClearCanvasF_store e
      show readSnapshot (hClearCanvasF e).store c = readSnapshot e.store c
      rw [hx]
      exact readSnapshot_append _ _ _ hbound
    | hCreateLayer => rfl
    | hSetActive i => rfl
    | hSetLocked i b => rfl

/-- The seed point of the C8 witness trace. -/
def c8Seed : Point := { x := 0, y := 0, pressure := 1, timestamp := 0 }

/-- A later input of the C8 witness trace. -/
def c8Move : Point := { x := 5, y := 5, pressure := 1, timestamp := 1 }

/-- The heap engine after starting one stroke — its start checkpoint is in
the history. -/
def c8Engine : HEngine := applyHOps initialH [HOp.hStartStroke c8Seed]

/-- The snapshot that checkpoint stored. -/
def c8Snap : CanvasRef := { layersR := [{ lockedR := false, strokesR := [] }] }

/-- Witness for C8: mutating the live state by adding a point leaves the
stored snapshot's read-back unchanged. -/
theorem snapshot_readback_independent_witness :
    c8Snap ∈ c8Engine.historyR ∧
    readSnapshot (applyHOp c8Engine (HOp.hAddPoint c8Move)).store c8Snap
      = readSnapshot c8Engine.store c8Snap :=
  ⟨by decide,
    snapshot_readback_independent.2 c8Engine (HOp.hAddPoint c8Move) c8Snap
      (snapshot_readback_independent.1 [HOp.hStartStroke c8Seed]) (by decide)⟩
